import Mathlib

/-!
Verification of the agent-spaces reference model, lock handling and harness
adapter against its specification.

Strings manipulated by the reference parser are modelled as `List Char`
(`Str`), mirroring JavaScript's per-code-unit regex semantics on the ASCII
and BMP characters involved.
-/

namespace AgentSpaces

abbrev Str := List Char

/-! Character classes used by the regular expressions in refs.ts. -/

/-- Hex digit class `[0-9a-f]` from COMMIT_SHA_PATTERN / GIT_PIN_PATTERN. -/
def isLowerHex (c : Char) : Bool :=
  c.isDigit || ('a' ≤ c && c ≤ 'f')

/-- Identifier-character class `[0-9A-Za-z.-]` from the semver patterns. -/
def semverIdChar (c : Char) : Bool :=
  c.isAlphanum || c == '.' || c == '-'

/-- Lower-case alphanumeric class `[a-z0-9]` from SPACE_ID_PATTERN. -/
def lowerAlnum (c : Char) : Bool :=
  c.isDigit || ('a' ≤ c && c ≤ 'z')

/-! Embedding of the selector grammar of refs.ts (part_006). -/

/-- Matcher for GIT_PIN_PATTERN `^git:([0-9a-f]{7,64})$`; returns the captured
sha on success. -/
def gitPinMatch : Str → Option Str
  | 'g' :: 'i' :: 't' :: ':' :: sha =>
      if sha.all isLowerHex = true ∧ 7 ≤ sha.length ∧ sha.length ≤ 64 then some sha
      else none
  | _ => none

/-- Consume one or more decimal digits (`\d+`), returning the rest. -/
def chompDigits : Str → Option Str
  | [] => none
  | c :: cs => if c.isDigit then some (cs.dropWhile Char.isDigit) else none

/-- Matcher for the optional build-metadata suffix `(?:\+[0-9A-Za-z.-]+)?$`. -/
def buildSuffixOk : Str → Bool
  | [] => true
  | '+' :: b => !b.isEmpty && b.all semverIdChar
  | _ => false

/-- Matcher for the semver suffix `(?:-[0-9A-Za-z.-]+)?(?:\+[0-9A-Za-z.-]+)?$`. -/
def semverSuffixOk : Str → Bool
  | [] => true
  | '-' :: rest =>
      !(rest.takeWhile semverIdChar).isEmpty &&
        buildSuffixOk (rest.dropWhile semverIdChar)
  | '+' :: b => !b.isEmpty && b.all semverIdChar
  | _ => false

/-- Matcher for SEMVER_EXACT_PATTERN
`^\d+\.\d+\.\d+(?:-[0-9A-Za-z.-]+)?(?:\+[0-9A-Za-z.-]+)?$`. -/
def semverExactMatch (s : Str) : Bool :=
  match chompDigits s with
  | none => false
  | some r1 =>
    match r1 with
    | '.' :: r2 =>
      match chompDigits r2 with
      | none => false
      | some r3 =>
        match r3 with
        | '.' :: r4 =>
          match chompDigits r4 with
          | none => false
          | some r5 => semverSuffixOk r5
        | _ => false
    | _ => false

/-- Matcher for SEMVER_RANGE_PATTERN, which is SEMVER_EXACT_PATTERN with an
optional leading `^` or `~`. -/
def semverRangeMatch (s : Str) : Bool :=
  match s with
  | c :: t => if c == '^' || c == '~' then semverExactMatch t else semverExactMatch s
  | [] => semverExactMatch s

/-- Test `selectorString.startsWith('^') || selectorString.startsWith('~')`. -/
def startsCaretTilde (s : Str) : Bool :=
  match s with
  | c :: _ => c == '^' || c == '~'
  | [] => false

/-- Parsed selector, mirroring the `Selector` union type of refs.ts. -/
inductive Selector
  | distTag (tag : Str)
  | semver (range : Str) (exact : Bool)
  | gitPin (sha : Str)
  deriving DecidableEq

/-- Embedding of `parseSelector` from refs.ts: git pin first, then prefixed
semver range, then exact semver, then dist-tag fallback. -/
def parseSelector (s : Str) : Selector :=
  match gitPinMatch s with
  | some sha => Selector.gitPin sha
  | none =>
    if startsCaretTilde s && semverRangeMatch s then Selector.semver s false
    else if semverExactMatch s then Selector.semver s true
    else Selector.distTag s

/-! Helper lemmas for the selector precedence theorem. -/

/-- A string headed by a caret or tilde never matches the exact-semver
pattern, whose first character must be a digit. -/
theorem semverExactMatch_eq_false_of_caretTilde (s : Str)
    (h : startsCaretTilde s = true) : semverExactMatch s = false := by
  cases s with
  | nil => simp [startsCaretTilde] at h
  | cons c t =>
    simp only [startsCaretTilde, Bool.or_eq_true, beq_iff_eq] at h
    rcases h with h | h <;> subst h <;> rfl

/-- Without a caret or tilde head the range pattern degenerates to the exact
pattern. -/
theorem semverRangeMatch_eq_exact (s : Str) (h : startsCaretTilde s = false) :
    semverRangeMatch s = semverExactMatch s := by
  cases s with
  | nil => rfl
  | cons c t =>
    simp only [startsCaretTilde] at h
    simp only [semverRangeMatch, h, Bool.false_eq_true, if_false]

/-- C1: `parseSelector` classifies every selector string by the fixed
precedence git-pin before semver before dist-tag: a string matching the
git-pin form yields kind git-pin with the captured sha; otherwise a string
matching the (optionally caret/tilde-prefixed) semver form yields kind
semver, exact precisely when there is no prefix; otherwise the string is a
dist-tag.  As `parseSelector` is a total function, exactly one kind is
produced for each string. -/
theorem parseSelector_precedence (s : Str) :
    (∀ sha, gitPinMatch s = some sha → parseSelector s = Selector.gitPin sha) ∧
    (gitPinMatch s = none → semverRangeMatch s = true →
      parseSelector s = Selector.semver s (!startsCaretTilde s)) ∧
    (gitPinMatch s = none → semverRangeMatch s = false →
      parseSelector s = Selector.distTag s) := by
  refine ⟨?_, ?_, ?_⟩
  · intro sha h
    simp [parseSelector, h]
  · intro h1 h2
    cases hst : startsCaretTilde s with
    | true => simp [parseSelector, h1, h2, hst]
    | false =>
      have he : semverExactMatch s = true := by
        rw [← semverRangeMatch_eq_exact s hst]; exact h2
      simp [parseSelector, h1, hst, he]
  · intro h1 h2
    cases hst : startsCaretTilde s with
    | true =>
      have he := semverExactMatch_eq_false_of_caretTilde s hst
      simp [parseSelector, h1, h2, hst, he]
    | false =>
      have he : semverExactMatch s = false := by
        rw [← semverRangeMatch_eq_exact s hst]; exact h2
      simp [parseSelector, h1, hst, he]

/-- Witness for C1 at the concrete selectors used throughout the repository:
a git pin, a caret range and a dist-tag. -/
theorem parseSelector_precedence_witness :
    parseSelector (("git:0123abc").data) = Selector.gitPin (("0123abc").data) ∧
    parseSelector (("^1.2.3").data) =
      Selector.semver (("^1.2.3").data) (!startsCaretTilde (("^1.2.3").data)) ∧
    parseSelector (("stable").data) = Selector.distTag (("stable").data) :=
  ⟨(parseSelector_precedence (("git:0123abc").data)).1 (("0123abc").data) (by decide),
   (parseSelector_precedence (("^1.2.3").data)).2.1 (by decide) (by decide),
   (parseSelector_precedence (("stable").data)).2.2 (by decide) (by decide)⟩

/-! Embedding of `parseSpaceRef` and `formatSpaceRef` from refs.ts. -/

/-- Identifier-run class `[a-z0-9-]`: the characters the id group of
SPACE_REF_PATTERN can consume. -/
def idRunChar (c : Char) : Bool := lowerAlnum c || c == '-'

/-- Recognizer for the id group `[a-z0-9]+(?:-[a-z0-9]+)*`; the flag records
whether the next character must start a new alphanumeric segment. -/
def kebabAux : Bool → Str → Bool
  | true, [] => false
  | false, [] => true
  | true, c :: cs => lowerAlnum c && kebabAux false cs
  | false, c :: cs =>
      if c == '-' then kebabAux true cs else lowerAlnum c && kebabAux false cs

/-- Full-string match of SPACE_ID_PATTERN `^[a-z0-9]+(?:-[a-z0-9]+)*$`. -/
def kebabOk (s : Str) : Bool := kebabAux true s

/-- Class matched by `.` in a JavaScript regex without the dotAll flag:
any character except a line terminator. -/
def dotChar (c : Char) : Bool :=
  !(c == '\n' || c == '\r' || c == '\u2028' || c == '\u2029')

/-- Parsed space reference, mirroring the `SpaceRef` interface: the original
selector string is retained verbatim beside the parsed selector. -/
structure SpaceRef where
  id : Str
  selectorString : Str
  selector : Selector
  deriving DecidableEq

/-- Embedding of `parseSpaceRef` from refs.ts: match SPACE_REF_PATTERN
`^space:([a-z0-9]+(?:-[a-z0-9]+)*)@(.+)$`, validate the id via `asSpaceId`
(kebab-case, 1-64 chars) and parse the selector.  The throwing failure paths
of the source are modelled as `none`.  Since `@` is outside the id group's
character class, the id group is exactly the maximal `[a-z0-9-]` run after
the scheme, and it must be followed by `@` and a non-empty selector. -/
def parseSpaceRef (s : Str) : Option SpaceRef :=
  match s with
  | 's' :: 'p' :: 'a' :: 'c' :: 'e' :: ':' :: rest =>
    match rest.dropWhile idRunChar with
    | '@' :: sel =>
      if kebabOk (rest.takeWhile idRunChar) = true ∧ sel ≠ [] ∧
          sel.all dotChar = true ∧ (rest.takeWhile idRunChar).length ≤ 64 then
        some ⟨rest.takeWhile idRunChar, sel, parseSelector sel⟩
      else none
    | _ => none
  | _ => none

/-- Embedding of `formatSpaceRef` from refs.ts:
`` `space:${ref.id}@${ref.selectorString}` ``. -/
def formatSpaceRef (r : SpaceRef) : Str :=
  's' :: 'p' :: 'a' :: 'c' :: 'e' :: ':' :: (r.id ++ '@' :: r.selectorString)

/-- C10: parsing and formatting of space references round-trip.  Every string
accepted by `parseSpaceRef` is reproduced verbatim by `formatSpaceRef`, since
the parsed reference keeps the original selector string and the id group is
exactly the text between the scheme and the separating `@`. -/
theorem formatSpaceRef_parseSpaceRef (s : Str) (r : SpaceRef)
    (h : parseSpaceRef s = some r) : formatSpaceRef r = s := by
  unfold parseSpaceRef at h
  split at h
  next rest =>
    split at h
    next sel heq =>
      split at h
      next hc =>
        injection h with h
        subst h
        unfold formatSpaceRef
        simp only [List.cons.injEq, true_and]
        rw [← heq]
        exact List.takeWhile_append_dropWhile idRunChar rest
      next => exact absurd h (by simp)
    next => exact absurd h (by simp)
  next => exact absurd h (by simp)

/-- Witness for C10: the round-trip at a concrete accepted reference. -/
theorem formatSpaceRef_parseSpaceRef_witness :
    formatSpaceRef
        ⟨("base").data, ("stable").data, Selector.distTag (("stable").data)⟩ =
      ("space:base@stable").data :=
  formatSpaceRef_parseSpaceRef (("space:base@stable").data)
    ⟨("base").data, ("stable").data, Selector.distTag (("stable").data)⟩
    (by decide)

/-! Splitting lemmas used to evaluate the reference grammar symbolically. -/

/-- Splitting a character run at the first character outside the class. -/
theorem takeWhile_append_stop (p : Char → Bool) (l r : Str) (c : Char)
    (hl : l.all p = true) (hc : p c = false) :
    (l ++ c :: r).takeWhile p = l ∧ (l ++ c :: r).dropWhile p = c :: r := by
  induction l with
  | nil => simp [List.takeWhile_cons, List.dropWhile_cons, hc]
  | cons a as ih =>
    simp only [List.all_cons, Bool.and_eq_true] at hl
    obtain ⟨ha, has⟩ := hl
    have h2 := ih has
    simp [List.takeWhile_cons, List.dropWhile_cons, ha, h2.1, h2.2]

/-- A kebab-case id consists only of identifier-run characters. -/
theorem kebabAux_all (s : Str) : ∀ b, kebabAux b s = true → s.all idRunChar = true := by
  induction s with
  | nil => intro b _; rfl
  | cons c cs ih =>
    intro b h
    cases b with
    | true =>
      simp only [kebabAux, Bool.and_eq_true] at h
      simp [List.all_cons, idRunChar, h.1, ih false h.2]
    | false =>
      cases hc : (c == '-') with
      | true =>
        rw [kebabAux, hc, if_pos rfl] at h
        simp [List.all_cons, idRunChar, hc, ih true h]
      | false =>
        rw [kebabAux, hc] at h
        simp only [Bool.false_eq_true, if_false, Bool.and_eq_true] at h
        simp [List.all_cons, idRunChar, h.1, ih false h.2]

/-- Evaluation of `parseSpaceRef` on a well-formed reference split into its
id and selector parts. -/
theorem parseSpaceRef_eq_some_of (idl sel : Str)
    (h1 : kebabOk idl = true) (h2 : sel ≠ []) (h3 : sel.all dotChar = true)
    (h4 : idl.length ≤ 64) :
    parseSpaceRef ('s' :: 'p' :: 'a' :: 'c' :: 'e' :: ':' :: (idl ++ '@' :: sel)) =
      some ⟨idl, sel, parseSelector sel⟩ := by
  have hall := kebabAux_all idl true h1
  have hsplit := takeWhile_append_stop idRunChar idl sel '@' hall rfl
  unfold parseSpaceRef
  split
  · next rest heq =>
      simp only [List.cons.injEq, true_and] at heq
      subst heq
      rw [hsplit.1, hsplit.2]
      split
      · next sel2 heq2 =>
          simp only [List.cons.injEq, true_and] at heq2
          subst heq2
          rw [if_pos ⟨h1, h2, h3, h4⟩]
      · next hne => exact absurd rfl (hne sel)
  · next hne => exact absurd rfl (hne (idl ++ '@' :: sel))

/-! Model of the dev selector kind and of the global-run dispatch.  The
selector grammar of refs.ts included in the sources has three kinds, but its
barrel module re-exports `isDevRef`/`partitionDevRefs` and run.ts branches on
a selector kind named dev, so the dev-aware variant of the reference module
is part of the repository without being included in the sources. -/

/-- Selector kinds including the dev kind listed by the spec. -/
inductive SelectorD
  | distTag (tag : Str)
  | semver (range : Str) (exact : Bool)
  | gitPin (sha : Str)
  | dev
  deriving DecidableEq

/-- Modelled from the spec: the dev-aware selector classification of the
reference module (its source is absent; only callers and re-exports remain).
The spec lists *dev* — "use working-tree content directly, bypassing the
store" — as a fourth selector kind, written as the literal selector `dev`;
all other strings keep the classification of `parseSelector`. -/
def parseSelectorD (s : Str) : SelectorD :=
  if s = 'd' :: 'e' :: 'v' :: [] then SelectorD.dev
  else
    match parseSelector s with
    | Selector.distTag t => SelectorD.distTag t
    | Selector.semver r e => SelectorD.semver r e
    | Selector.gitPin sha => SelectorD.gitPin sha

/-- Space reference carrying a dev-aware selector. -/
structure SpaceRefD where
  id : Str
  selectorString : Str
  selector : SelectorD
  deriving DecidableEq

/-- Modelled from the spec: dev-aware `parseSpaceRef` — the same reference
grammar, with the selector classified by `parseSelectorD`. -/
def parseSpaceRefD (s : Str) : Option SpaceRefD :=
  match parseSpaceRef s with
  | some r => some ⟨r.id, r.selectorString, parseSelectorD r.selectorString⟩
  | none => none

/-- Outcome of the dispatch at the head of `runGlobalSpace`. -/
inductive RunPath
  | localSpace (spacePath : Str)
  | storeClosure
  deriving DecidableEq

/-- Embedding of the dispatch of `runGlobalSpace` (run.ts): a reference whose
selector kind is dev is handed to `runLocalSpace` on the working-tree path
`<registry>/spaces/<id>`; every other selector goes through closure
computation, snapshot creation and lock persistence. -/
def runGlobalSpaceDispatch (registryPath : Str) (ref : SpaceRefD) : RunPath :=
  if ref.selector = SelectorD.dev then
    RunPath.localSpace
      (registryPath ++ ('/' :: 's' :: 'p' :: 'a' :: 'c' :: 'e' :: 's' :: '/' :: []) ++ ref.id)
  else RunPath.storeClosure

/-- C2: for every valid space id, `space:<id>@dev` parses to the dev selector
kind — a fourth kind distinct from dist-tag, semver and git-pin — and
`runGlobalSpace` sends such a reference down the working-tree path
(`runLocalSpace`) instead of the closure-and-snapshot path. -/
theorem devRef_parses_and_runs_local (id : Str) (registryPath : Str)
    (h1 : kebabOk id = true) (h2 : id.length ≤ 64) :
    parseSpaceRefD
        ('s' :: 'p' :: 'a' :: 'c' :: 'e' :: ':' :: (id ++ '@' :: 'd' :: 'e' :: 'v' :: [])) =
      some ⟨id, 'd' :: 'e' :: 'v' :: [], SelectorD.dev⟩ ∧
    runGlobalSpaceDispatch registryPath ⟨id, 'd' :: 'e' :: 'v' :: [], SelectorD.dev⟩ =
      RunPath.localSpace
        (registryPath ++ ('/' :: 's' :: 'p' :: 'a' :: 'c' :: 'e' :: 's' :: '/' :: []) ++ id) ∧
    (∀ t, SelectorD.dev ≠ SelectorD.distTag t) ∧
    (∀ r e, SelectorD.dev ≠ SelectorD.semver r e) ∧
    (∀ sha, SelectorD.dev ≠ SelectorD.gitPin sha) := by
  refine ⟨?_, rfl, ?_, ?_, ?_⟩
  · have hp := parseSpaceRef_eq_some_of id ('d' :: 'e' :: 'v' :: []) h1 (by decide) (by decide) h2
    unfold parseSpaceRefD
    rw [hp]
    exact rfl
  · intro t h; cases h
  · intro r e h; cases h
  · intro sha h; cases h

/-- Witness for C2 at the id `base`, as exercised by the repository's smoke
tests (`space:base@dev`). -/
theorem devRef_parses_and_runs_local_witness :
    parseSpaceRefD (("space:base@dev").data) =
      some ⟨("base").data, 'd' :: 'e' :: 'v' :: [], SelectorD.dev⟩ ∧
    runGlobalSpaceDispatch (("/reg").data)
        ⟨("base").data, 'd' :: 'e' :: 'v' :: [], SelectorD.dev⟩ =
      RunPath.localSpace ((("/reg").data) ++ (("/spaces/").data) ++ ("base").data) :=
  ⟨(devRef_parses_and_runs_local (("base").data) (("/reg").data) (by decide) (by decide)).1,
   (devRef_parses_and_runs_local (("base").data) (("/reg").data) (by decide) (by decide)).2.1⟩

/-! Lock-file model.  The lock structure follows the spec's Lock File domain
entity: a spaces map keyed by Space Key and a targets map keyed by target
name, plus a generation timestamp.  Maps are insertion-ordered association
lists, as JavaScript objects are. -/

/-- Lock entry for one pinned space: id, commit, registry-relative path,
integrity hash, plugin identity and declared dependency keys. -/
structure LockSpaceEntry where
  id : String
  commit : String
  path : String
  integrity : String
  pluginName : String
  deps : List String
  deriving DecidableEq

/-- Lock entry for one target: its declared composition list and resolved
load order. -/
structure LockTargetEntry where
  compose : List String
  loadOrder : List String
  deriving DecidableEq

/-- Lock file: generation timestamp, spaces map and targets map. -/
structure LockFileM where
  generatedAt : Nat
  spaces : List (String × LockSpaceEntry)
  targets : List (String × LockTargetEntry)
  deriving DecidableEq

/-- First-match lookup in an association-list map. -/
def mapLookup {α : Type} : List (String × α) → String → Option α
  | [], _ => none
  | (k, v) :: rest, key => if k = key then some v else mapLookup rest key

/-- Key-wise right-biased union of two association-list maps, with the key
order of a JavaScript object spread: keys of `a` first (values overridden by
`b` where shared), then the keys only in `b`. -/
def mapMerge {α : Type} (a b : List (String × α)) : List (String × α) :=
  a.map (fun kv => (kv.1, (mapLookup b kv.1).getD kv.2)) ++
    b.filter (fun kv => (mapLookup a kv.1).isNone)

/-- Modelled from the spec: `mergeLockFiles` of the resolver package, whose
source is not included (install.ts folds it over per-target resolution
results).  Per-target lock results are merged into one shared spaces map and
targets map, later results winning per key, and the generation timestamp is
taken from the newer lock. -/
def mergeLockFiles (a b : LockFileM) : LockFileM :=
  { generatedAt := b.generatedAt
    spaces := mapMerge a.spaces b.spaces
    targets := mapMerge a.targets b.targets }

/-- Modelled from the spec: `createEmptyLockFile` of the core lock module,
whose source is not included: a lock with no spaces and no targets. -/
def createEmptyLockFile (t : Nat) : LockFileM :=
  { generatedAt := t, spaces := [], targets := [] }

/-- The two maps agree on every shared key (checked entry-wise). -/
def mapAgrees {α : Type} [DecidableEq α] (a b : List (String × α)) : Bool :=
  a.all (fun kv =>
    match mapLookup b kv.1 with
    | some w => decide (kv.2 = w)
    | none => true)

theorem mapLookup_append {α : Type} (a b : List (String × α)) (k : String) :
    mapLookup (a ++ b) k =
      match mapLookup a k with
      | some v => some v
      | none => mapLookup b k := by
  induction a with
  | nil => rfl
  | cons kv rest ih =>
    obtain ⟨k0, v0⟩ := kv
    by_cases h : k0 = k
    · simp [mapLookup, h]
    · simp [mapLookup, h, ih]

theorem mapLookup_map_override {α : Type} (b : List (String × α)) (a : List (String × α))
    (k : String) :
    mapLookup (a.map (fun kv => (kv.1, (mapLookup b kv.1).getD kv.2))) k =
      (mapLookup a k).map (fun v => (mapLookup b k).getD v) := by
  induction a with
  | nil => rfl
  | cons kv rest ih =>
    obtain ⟨k0, v0⟩ := kv
    by_cases h : k0 = k
    · subst h; simp [mapLookup]
    · simp [mapLookup, h, ih]

theorem mapLookup_filter_keys {α : Type} (p : String → Bool) (b : List (String × α))
    (k : String) :
    mapLookup (b.filter (fun kv => p kv.1)) k =
      if p k = true then mapLookup b k else none := by
  induction b with
  | nil => simp [mapLookup]
  | cons kv rest ih =>
    obtain ⟨k0, v0⟩ := kv
    by_cases hk : k0 = k
    · subst hk
      cases hp : p k0 with
      | true => simp [List.filter_cons, hp, mapLookup]
      | false => simp [List.filter_cons, hp, mapLookup, ih]
    · cases hp : p k0 with
      | true => simp [List.filter_cons, hp, mapLookup, hk, ih]
      | false => simp [List.filter_cons, hp, mapLookup, hk, ih]

/-- Lookup in a merged map: the right map wins on shared keys. -/
theorem mapMerge_lookup {α : Type} (a b : List (String × α)) (k : String) :
    mapLookup (mapMerge a b) k =
      match mapLookup a k with
      | some v => some ((mapLookup b k).getD v)
      | none => mapLookup b k := by
  unfold mapMerge
  rw [mapLookup_append, mapLookup_map_override,
    mapLookup_filter_keys (fun x => (mapLookup a x).isNone) b k]
  cases ha : mapLookup a k with
  | some v => simp
  | none => simp

theorem mapMerge_nil_lookup {α : Type} (x : List (String × α)) (k : String) :
    mapLookup (mapMerge [] x) k = mapLookup x k := by
  rw [mapMerge_lookup]
  rfl

theorem mapAgrees_eq {α : Type} [DecidableEq α] (a b : List (String × α))
    (h : mapAgrees a b = true) (k : String) (v w : α)
    (hv : mapLookup a k = some v) (hw : mapLookup b k = some w) : v = w := by
  induction a with
  | nil => simp [mapLookup] at hv
  | cons kv rest ih =>
    obtain ⟨k0, v0⟩ := kv
    simp only [mapAgrees, List.all_cons, Bool.and_eq_true] at h
    by_cases hk : k0 = k
    · subst hk
      rw [mapLookup, if_pos rfl] at hv
      injection hv with hv
      subst hv
      have h0 := h.1
      rw [hw] at h0
      exact of_decide_eq_true h0
    · rw [mapLookup, if_neg hk] at hv
      exact ih h.2 hv

/-- Merging is lookup-commutative when both maps agree on shared keys. -/
theorem mapMerge_comm_lookup {α : Type} [DecidableEq α] (a b : List (String × α))
    (h : mapAgrees a b = true) (k : String) :
    mapLookup (mapMerge a b) k = mapLookup (mapMerge b a) k := by
  rw [mapMerge_lookup, mapMerge_lookup]
  cases ha : mapLookup a k with
  | some v =>
    cases hb : mapLookup b k with
    | some w => simpa using (mapAgrees_eq a b h k v w ha hb).symm
    | none => simp
  | none =>
    cases hb : mapLookup b k with
    | some w => simp
    | none => simp

theorem merge_empty_lookup {α : Type} (x y : List (String × α)) (k : String) :
    mapLookup (mapMerge (mapMerge [] x) y) k = mapLookup (mapMerge x y) k := by
  rw [mapMerge_lookup (mapMerge [] x) y k, mapMerge_lookup x y k, mapMerge_nil_lookup x k]

/-- C3: lock-file merging is order-independent.  Folding `mergeLockFiles`
over two per-target resolution results starting from an empty lock gives the
same spaces map and the same targets map in either order (pointwise, for
every key), up to the generation timestamp; per-target results resolved
against one registry agree on shared keys, which is the stated hypothesis. -/
theorem mergeLockFiles_order_independent (A B : LockFileM) (t : Nat)
    (hs : mapAgrees A.spaces B.spaces = true)
    (ht : mapAgrees A.targets B.targets = true) (k : String) :
    mapLookup (([A, B].foldl mergeLockFiles (createEmptyLockFile t)).spaces) k =
      mapLookup (([B, A].foldl mergeLockFiles (createEmptyLockFile t)).spaces) k ∧
    mapLookup (([A, B].foldl mergeLockFiles (createEmptyLockFile t)).targets) k =
      mapLookup (([B, A].foldl mergeLockFiles (createEmptyLockFile t)).targets) k := by
  constructor
  · show mapLookup (mapMerge (mapMerge [] A.spaces) B.spaces) k =
      mapLookup (mapMerge (mapMerge [] B.spaces) A.spaces) k
    rw [merge_empty_lookup A.spaces B.spaces k, merge_empty_lookup B.spaces A.spaces k]
    exact mapMerge_comm_lookup A.spaces B.spaces hs k
  · show mapLookup (mapMerge (mapMerge [] A.targets) B.targets) k =
      mapLookup (mapMerge (mapMerge [] B.targets) A.targets) k
    rw [merge_empty_lookup A.targets B.targets k, merge_empty_lookup B.targets A.targets k]
    exact mapMerge_comm_lookup A.targets B.targets ht k

/-- Sample lock entry shared by the overlapping witness locks. -/
def sampleBaseEntry : LockSpaceEntry :=
  ⟨"base", "abc1234", "spaces/base", "sha256:aa", "base", []⟩

/-- Sample lock entry only present in the second witness lock. -/
def sampleFrontEntry : LockSpaceEntry :=
  ⟨"front", "def5678", "spaces/front", "sha256:bb", "front", ["base@abc1234"]⟩

/-- Witness lock for target `default`. -/
def sampleLockA : LockFileM :=
  ⟨1, [("base@abc1234", sampleBaseEntry)],
   [("default", ⟨["space:base@stable"], ["base@abc1234"]⟩)]⟩

/-- Witness lock for target `web`, overlapping `sampleLockA` on the base
space. -/
def sampleLockB : LockFileM :=
  ⟨2, [("base@abc1234", sampleBaseEntry), ("front@def5678", sampleFrontEntry)],
   [("web", ⟨["space:front@^1.0.0"], ["base@abc1234", "front@def5678"]⟩)]⟩

/-- Witness for C3 on two overlapping per-target locks at the shared key. -/
theorem mergeLockFiles_order_independent_witness :
    mapLookup
        (([sampleLockA, sampleLockB].foldl mergeLockFiles (createEmptyLockFile 0)).spaces)
        ("base@abc1234") =
      mapLookup
        (([sampleLockB, sampleLockA].foldl mergeLockFiles (createEmptyLockFile 0)).spaces)
        ("base@abc1234") ∧
    mapLookup
        (([sampleLockA, sampleLockB].foldl mergeLockFiles (createEmptyLockFile 0)).targets)
        ("base@abc1234") =
      mapLookup
        (([sampleLockB, sampleLockA].foldl mergeLockFiles (createEmptyLockFile 0)).targets)
        ("base@abc1234") :=
  mergeLockFiles_order_independent sampleLockA sampleLockB 0 (by decide) (by decide)
    ("base@abc1234")

/-! Embedding of `populateStore` from install.ts.  The store is modelled as
the list of snapshot integrities present; the embedding additionally records
the integrities passed to `snapshotExists` and the entries for which
`createSnapshot` ran, so frame properties can be stated. -/

/-- Modelled from the spec: the sentinel commit marker carried by dev lock
entries (`DEV_COMMIT_MARKER` of the resolver package, source not included;
only its comparisons in install.ts remain).  The theorems depend only on
entries being compared against it, not on its value. -/
def DEV_COMMIT_MARKER : String := "dev"

/-- Modelled from the spec: the sentinel integrity marker carried by dev lock
entries (`DEV_INTEGRITY` of the resolver package, source not included). -/
def DEV_INTEGRITY : String := "sha256:dev"

/-- Dev test as written in install.ts:
`entry.commit === DEV_COMMIT_MARKER || entry.integrity === DEV_INTEGRITY`. -/
def isDevEntry (e : LockSpaceEntry) : Bool :=
  decide (e.commit = DEV_COMMIT_MARKER ∨ e.integrity = DEV_INTEGRITY)

/-- Result of `populateStore`: the final store contents, the entries for
which `createSnapshot` ran (the returned count is their number), and the
integrities passed to `snapshotExists`, in order. -/
structure PopulateResult where
  store : List String
  created : List LockSpaceEntry
  checked : List String
  deriving DecidableEq

/-- Embedding of `populateStore` (install.ts): iterate the lock's space
entries; skip dev entries outright; otherwise ask the store whether a
snapshot with the entry's integrity exists and create it only when absent,
incrementing the created count. -/
def populateStore (store : List String) : List LockSpaceEntry → PopulateResult
  | [] => ⟨store, [], []⟩
  | e :: rest =>
    if isDevEntry e then populateStore store rest
    else if e.integrity ∈ store then
      let r := populateStore store rest
      ⟨r.store, r.created, e.integrity :: r.checked⟩
    else
      let r := populateStore (e.integrity :: store) rest
      ⟨r.store, e :: r.created, e.integrity :: r.checked⟩

/-- C5: `populateStore` never touches the store for dev entries: the
integrities it checks for existence are exactly those of the non-dev entries
in order, and every entry it creates a snapshot for (and hence counts) is a
non-dev entry. -/
theorem populateStore_skips_dev (entries : List LockSpaceEntry) :
    ∀ store : List String,
    (populateStore store entries).checked =
      (entries.filter (fun e => !isDevEntry e)).map (fun e => e.integrity) ∧
    (populateStore store entries).created.all (fun e => !isDevEntry e) = true := by
  induction entries with
  | nil => intro store; exact ⟨rfl, rfl⟩
  | cons e rest ih =>
    intro store
    cases hd : isDevEntry e with
    | true =>
      rw [populateStore, if_pos hd]
      simpa [List.filter_cons, hd] using ih store
    | false =>
      rw [populateStore, if_neg (by simp [hd])]
      by_cases hm : e.integrity ∈ store
      · rw [if_pos hm]
        have h2 := ih store
        simp [List.filter_cons, hd, h2.1, h2.2]
      · rw [if_neg hm]
        have h2 := ih (e.integrity :: store)
        simp [List.filter_cons, hd, h2.1, h2.2]

/-- Store contents only grow during `populateStore`. -/
theorem populateStore_store_mono (entries : List LockSpaceEntry) :
    ∀ (store : List String) (x : String), x ∈ store →
      x ∈ (populateStore store entries).store := by
  induction entries with
  | nil => intro store x hx; exact hx
  | cons e rest ih =>
    intro store x hx
    rw [populateStore]
    by_cases hd : isDevEntry e = true
    · rw [if_pos hd]; exact ih store x hx
    · rw [if_neg hd]
      by_cases hm : e.integrity ∈ store
      · rw [if_pos hm]; exact ih store x hx
      · rw [if_neg hm]
        exact ih (e.integrity :: store) x (List.mem_cons_of_mem _ hx)

/-- After `populateStore`, every non-dev entry's integrity is in the store. -/
theorem populateStore_integrity_mem (entries : List LockSpaceEntry) :
    ∀ (store : List String) (e : LockSpaceEntry), e ∈ entries →
      isDevEntry e = false → e.integrity ∈ (populateStore store entries).store := by
  induction entries with
  | nil => intro _ _ he _; cases he
  | cons f rest ih =>
    intro store e he hd
    rw [populateStore]
    rcases List.mem_cons.mp he with rfl | hmem
    · rw [if_neg (by simp [hd])]
      by_cases hm : e.integrity ∈ store
      · rw [if_pos hm]; exact populateStore_store_mono rest store e.integrity hm
      · rw [if_neg hm]
        exact populateStore_store_mono rest (e.integrity :: store) e.integrity
          (List.mem_cons_self _ _)
    · by_cases hfd : isDevEntry f = true
      · rw [if_pos hfd]; exact ih store e hmem hd
      · rw [if_neg hfd]
        by_cases hm : f.integrity ∈ store
        · rw [if_pos hm]
          exact ih store e hmem hd
        · rw [if_neg hm]
          exact ih (f.integrity :: store) e hmem hd

/-- When every non-dev entry's integrity is already present, `populateStore`
creates nothing. -/
theorem populateStore_no_create_of_present (entries : List LockSpaceEntry) :
    ∀ store : List String,
      (∀ e, e ∈ entries → isDevEntry e = false → e.integrity ∈ store) →
      (populateStore store entries).created = [] := by
  induction entries with
  | nil => intro _ _; rfl
  | cons f rest ih =>
    intro store h
    rw [populateStore]
    by_cases hfd : isDevEntry f = true
    · rw [if_pos hfd]
      exact ih store (fun e he => h e (List.mem_cons_of_mem _ he))
    · rw [if_neg hfd]
      have hf := h f (List.mem_cons_self _ _) (Bool.eq_false_iff.mpr hfd)
      rw [if_pos hf]
      exact ih store (fun e he => h e (List.mem_cons_of_mem _ he))

/-- An entry whose snapshot is already in the store is never created. -/
theorem populateStore_not_created_of_present (entries : List LockSpaceEntry) :
    ∀ (store : List String) (e : LockSpaceEntry), e.integrity ∈ store →
      e ∉ (populateStore store entries).created := by
  induction entries with
  | nil => intro _ _ _ h; cases h
  | cons f rest ih =>
    intro store e hs
    rw [populateStore]
    by_cases hfd : isDevEntry f = true
    · rw [if_pos hfd]; exact ih store e hs
    · rw [if_neg hfd]
      by_cases hm : f.integrity ∈ store
      · rw [if_pos hm]
        exact ih store e hs
      · rw [if_neg hm]
        intro hc
        rcases List.mem_cons.mp hc with rfl | hc2
        · exact hm hs
        · exact ih (f.integrity :: store) e (List.mem_cons_of_mem _ hs) hc2

/-- C6: snapshot population is idempotent: an entry whose integrity already
exists in the store is neither created nor counted, and a second run of
`populateStore` on the resulting store creates zero snapshots. -/
theorem populateStore_idempotent (store : List String) (entries : List LockSpaceEntry)
    (e : LockSpaceEntry) (hs : e.integrity ∈ store) :
    e ∉ (populateStore store entries).created ∧
    (populateStore (populateStore store entries).store entries).created = [] := by
  constructor
  · exact populateStore_not_created_of_present entries store e hs
  · exact populateStore_no_create_of_present entries _
      (fun f hf hfd => populateStore_integrity_mem entries store f hf hfd)

/-- Witness for C6 on a store that already holds the base entry's snapshot. -/
theorem populateStore_idempotent_witness :
    sampleBaseEntry ∉
      (populateStore ["sha256:aa"] [sampleBaseEntry, sampleFrontEntry]).created ∧
    (populateStore (populateStore ["sha256:aa"] [sampleBaseEntry, sampleFrontEntry]).store
        [sampleBaseEntry, sampleFrontEntry]).created = [] :=
  populateStore_idempotent ["sha256:aa"] [sampleBaseEntry, sampleFrontEntry]
    sampleBaseEntry (by decide)

/-! Embedding of the selective-upgrade pinning logic of `install`
(install.ts): with update mode on and a non-empty upgrade list, every space
entry of the existing lock whose id is outside the upgrade set is pinned to
its locked commit. -/

/-- JavaScript `Map.set`: update the entry in place if the key exists,
otherwise append. -/
def mapSet (m : List (String × String)) (k v : String) : List (String × String) :=
  match m with
  | [] => [(k, v)]
  | (k0, v0) :: rest => if k0 = k then (k, v) :: rest else (k0, v0) :: mapSet rest k v

/-- One iteration of the pinning loop of `install`: skip entries whose id is
in the upgrade set, pin all others. -/
def pinStep (u : List String) (m : List (String × String)) (e : LockSpaceEntry) :
    List (String × String) :=
  if e.id ∈ u then m else mapSet m e.id e.commit

/-- Embedding of the `pinnedSpaces` construction of `install` (install.ts):
`undefined` (here `none`) unless update mode is on, the upgrade list is
non-empty and an existing lock is present; otherwise the map built by
folding `pinStep` over the existing lock's space entries. -/
def buildPinnedSpaces (update : Bool) (upgradeSpaceIds : List String)
    (existingLock : Option (List LockSpaceEntry)) : Option (List (String × String)) :=
  if update = true ∧ upgradeSpaceIds ≠ [] then
    match existingLock with
    | some entries => some (entries.foldl (pinStep upgradeSpaceIds) [])
    | none => none
  else none

theorem mapLookup_mapSet (m : List (String × String)) (k v k2 : String) :
    mapLookup (mapSet m k v) k2 = if k = k2 then some v else mapLookup m k2 := by
  induction m with
  | nil => rfl
  | cons kv rest ih =>
    obtain ⟨k0, v0⟩ := kv
    by_cases h0 : k0 = k
    · subst h0
      by_cases h2 : k0 = k2
      · subst h2; simp [mapSet, mapLookup]
      · simp [mapSet, mapLookup, h2]
    · by_cases h2 : k = k2
      · subst h2
        simp [mapSet, mapLookup, h0, ih]
      · by_cases h3 : k0 = k2
        · subst h3; simp [mapSet, mapLookup, h0, h2]
        · simp [mapSet, mapLookup, h0, h2, h3, ih]

theorem find?_append {α : Type} (l1 l2 : List α) (p : α → Bool) :
    (l1 ++ l2).find? p =
      match l1.find? p with
      | some x => some x
      | none => l2.find? p := by
  induction l1 with
  | nil => rfl
  | cons a rest ih =>
    cases hp : p a with
    | true => simp [List.find?_cons, hp]
    | false => simp [List.find?_cons, hp, ih]

/-- Lookup after the pinning fold: the last non-upgraded entry with the
requested id wins, and the accumulator is consulted otherwise. -/
theorem pin_foldl_lookup (u : List String) (entries : List LockSpaceEntry) :
    ∀ (m : List (String × String)) (id : String),
      mapLookup (entries.foldl (pinStep u) m) id =
        match (entries.filter (fun e => !decide (e.id ∈ u))).reverse.find?
            (fun e => decide (e.id = id)) with
        | some e => some e.commit
        | none => mapLookup m id := by
  induction entries with
  | nil => intro m id; rfl
  | cons f rest ih =>
    intro m id
    rw [List.foldl_cons, ih (pinStep u m f) id]
    by_cases hf : f.id ∈ u
    · simp only [List.filter_cons, decide_eq_true hf, Bool.not_true, Bool.false_eq_true,
        if_false, pinStep, hf, if_pos]
      rfl
    · simp only [List.filter_cons, decide_eq_false hf, Bool.not_false, if_pos,
        List.reverse_cons, find?_append]
      cases hfind : (rest.filter (fun e => !decide (e.id ∈ u))).reverse.find?
          (fun e => decide (e.id = id)) with
      | some e => rfl
      | none =>
        by_cases hid : f.id = id
        · subst hid
          simp [List.find?_cons, pinStep, hf, mapLookup_mapSet]
        · simp [List.find?_cons, hid, pinStep, hf, mapLookup_mapSet]

/-- C7: with update mode on, a non-empty upgrade list and an existing lock,
the pinned map contains exactly the (id, commit) pairs of the lock's space
entries whose id is outside the upgrade set — transitive-only ids included,
since the loop ranges over all space entries of the lock, not only roots. -/
theorem install_pins_non_upgraded (u : List String) (entries : List LockSpaceEntry)
    (hu : u ≠ []) (hnd : (entries.map (fun e => e.id)).Nodup) :
    ∃ pinned, buildPinnedSpaces true u (some entries) = some pinned ∧
      ∀ id c, mapLookup pinned id = some c ↔
        (id ∉ u ∧ ∃ e, e ∈ entries ∧ e.id = id ∧ e.commit = c) := by
  refine ⟨entries.foldl (pinStep u) [], ?_, ?_⟩
  · unfold buildPinnedSpaces
    rw [if_pos ⟨rfl, hu⟩]
  · intro id c
    rw [pin_foldl_lookup u entries [] id]
    constructor
    · intro h
      cases hfind : (entries.filter (fun e => !decide (e.id ∈ u))).reverse.find?
          (fun e => decide (e.id = id)) with
      | none => rw [hfind] at h; exact absurd h (by simp [mapLookup])
      | some e =>
        rw [hfind] at h
        injection h with h
        have hpred := List.find?_some hfind
        have hmem := List.mem_of_find?_eq_some hfind
        rw [List.mem_reverse, List.mem_filter] at hmem
        have hid : e.id = id := of_decide_eq_true hpred
        have hnu : ¬(e.id ∈ u) := by
          have := hmem.2
          simp only [Bool.not_eq_eq_eq_not, Bool.not_true] at this
          exact of_decide_eq_false this
        subst hid
        exact ⟨hnu, e, hmem.1, rfl, h⟩
    · rintro ⟨hnu, e, hmem, hid, hc⟩
      subst hid
      subst hc
      have hfmem : e ∈ (entries.filter (fun x => !decide (x.id ∈ u))).reverse := by
        rw [List.mem_reverse, List.mem_filter]
        exact ⟨hmem, by simp [hnu]⟩
      have hsome : ((entries.filter (fun x => !decide (x.id ∈ u))).reverse.find?
          (fun x => decide (x.id = e.id))).isSome := by
        rw [List.find?_isSome]
        exact ⟨e, hfmem, by simp⟩
      cases hfind : (entries.filter (fun x => !decide (x.id ∈ u))).reverse.find?
          (fun x => decide (x.id = e.id)) with
      | none => rw [hfind] at hsome; cases hsome
      | some x =>
        have hxmem := List.mem_of_find?_eq_some hfind
        rw [List.mem_reverse, List.mem_filter] at hxmem
        have hpred2 := List.find?_some hfind
        have hxid : x.id = e.id := by simpa using hpred2
        have hxe : x = e := List.inj_on_of_nodup_map hnd hxmem.1 hmem hxid
        rw [hxe]

/-- Witness for C7: upgrading only `front` pins `base` (and exactly it). -/
theorem install_pins_non_upgraded_witness :
    ∃ pinned, buildPinnedSpaces true ["front"]
        (some [sampleBaseEntry, sampleFrontEntry]) = some pinned ∧
      ∀ id c, mapLookup pinned id = some c ↔
        (id ∉ ["front"] ∧ ∃ e, e ∈ [sampleBaseEntry, sampleFrontEntry] ∧
          e.id = id ∧ e.commit = c) :=
  install_pins_non_upgraded ["front"] [sampleBaseEntry, sampleFrontEntry]
    (by decide) (by decide)

/-! Embedding of the plugin-directory naming of `ClaudeAdapter.composeTarget`
(claude-adapter.ts) and of the alphabetical recovery performed by
`getPluginDirsFromAspModules` (run.ts). -/

/-- Ordered artifact entering composition: space id and materialized path. -/
structure SpaceArtifact where
  spaceId : Str
  artifactPath : Str
  deriving DecidableEq

/-- Decimal digits of a number, fuel-indexed so that it computes by
structural recursion. -/
def natCharsAux : Nat → Nat → Str
  | 0, _ => []
  | fuel + 1, i =>
    if i < 10 then [Nat.digitChar i]
    else natCharsAux fuel (i / 10) ++ [Nat.digitChar (i % 10)]

/-- JavaScript `String(i)` for a natural index. -/
def natChars (i : Nat) : Str := natCharsAux (i + 1) i

/-- JavaScript `String(i).padStart(3, '0')`, as used for the numeric
prefixes of composed plugin directories. -/
def pad3 (i : Nat) : Str :=
  if (natChars i).length ≥ 3 then natChars i
  else List.replicate (3 - (natChars i).length) '0' ++ natChars i

/-- Directory names generated by `composeTarget`: the artifact at index `i`
goes under `<pad3 i>-<spaceId>`. -/
def composePluginDirNames (artifacts : List SpaceArtifact) : List Str :=
  artifacts.enum.map (fun p => pad3 p.1 ++ '-' :: p.2.spaceId)

/-- Code-unit lexicographic strict comparison: the order JavaScript's default
array sort puts strings in. -/
def lexLt : Str → Str → Bool
  | [], [] => false
  | [], _ :: _ => true
  | _ :: _, [] => false
  | a :: as, b :: bs => if a < b then true else if b < a then false else lexLt as bs

/-- Propositional form of `lexLt`, used as the sort relation. -/
def lexLtRel (x y : Str) : Prop := lexLt x y = true

instance : DecidableRel lexLtRel :=
  fun x y => inferInstanceAs (Decidable (lexLt x y = true))

theorem natCharsAux_fuel_irrel : ∀ (f1 f2 i : Nat), i < f1 → i < f2 →
    natCharsAux f1 i = natCharsAux f2 i := by
  intro f1
  induction f1 with
  | zero => intro f2 i h1 _; omega
  | succ g1 ih =>
    intro f2 i h1 h2
    cases f2 with
    | zero => omega
    | succ g2 =>
      by_cases hsmall : i < 10
      · simp [natCharsAux, hsmall]
      · simp only [natCharsAux, hsmall, if_false]
        rw [ih g2 (i / 10) (by omega) (by omega)]

theorem digitChar_lt_iff (a b : Nat) (ha : a < 10) (hb : b < 10) :
    Nat.digitChar a < Nat.digitChar b ↔ a < b := by
  have h : ∀ x : Fin 10, ∀ y : Fin 10,
      (Nat.digitChar x.1 < Nat.digitChar y.1 ↔ x.1 < y.1) := by decide
  exact h ⟨a, ha⟩ ⟨b, hb⟩

theorem natChars_small (i : Nat) (h : i < 10) : natChars i = [Nat.digitChar i] := by
  rw [natChars, natCharsAux, if_pos h]

theorem natChars_mid (i : Nat) (h1 : 10 ≤ i) (h2 : i < 100) :
    natChars i = [Nat.digitChar (i / 10), Nat.digitChar (i % 10)] := by
  rw [natChars, natCharsAux, if_neg (by omega),
    natCharsAux_fuel_irrel i (i / 10 + 1) (i / 10) (by omega) (by omega)]
  rw [← natChars, natChars_small (i / 10) (by omega)]
  rfl

theorem natChars_big (i : Nat) (h1 : 100 ≤ i) (h2 : i < 1000) :
    natChars i =
      [Nat.digitChar (i / 100), Nat.digitChar (i / 10 % 10), Nat.digitChar (i % 10)] := by
  rw [natChars, natCharsAux, if_neg (by omega),
    natCharsAux_fuel_irrel i (i / 10 + 1) (i / 10) (by omega) (by omega)]
  rw [← natChars, natChars_mid (i / 10) (by omega) (by omega)]
  have hd : i / 10 / 10 = i / 100 := by omega
  rw [hd]
  rfl

/-- Below 1000 the padded prefix is the three decimal digits. -/
theorem pad3_eq (i : Nat) (h : i < 1000) :
    pad3 i =
      [Nat.digitChar (i / 100), Nat.digitChar (i / 10 % 10), Nat.digitChar (i % 10)] := by
  by_cases h1 : i < 10
  · have h2 : i / 100 = 0 := by omega
    have h3 : i / 10 % 10 = 0 := by omega
    have h4 : i % 10 = i := by omega
    rw [pad3, natChars_small i h1, h2, h3, h4]
    rfl
  · by_cases h2 : i < 100
    · have h3 : i / 100 = 0 := by omega
      have h4 : i / 10 % 10 = i / 10 := by omega
      rw [pad3, natChars_mid i (by omega) h2, h3, h4]
      rfl
    · rw [pad3, natChars_big i (by omega) h]
      rfl

/-- Zero-padded three-digit prefixes sort in numeric order below 1000. -/
theorem pad3_lt (i j : Nat) (hij : i < j) (hj : j < 1000) :
    lexLt (pad3 i) (pad3 j) = true := by
  have hi : i < 1000 := Nat.lt_trans hij hj
  rw [pad3_eq i hi, pad3_eq j hj]
  rcases Nat.lt_trichotomy (i / 100) (j / 100) with h1 | h1 | h1
  · have hc : Nat.digitChar (i / 100) < Nat.digitChar (j / 100) :=
      (digitChar_lt_iff (i / 100) (j / 100) (by omega) (by omega)).mpr h1
    simp [lexLt, hc]
  · rw [h1]
    have hrefl : ¬ Nat.digitChar (j / 100) < Nat.digitChar (j / 100) := by
      rw [digitChar_lt_iff (j / 100) (j / 100) (by omega) (by omega)]
      omega
    rcases Nat.lt_trichotomy (i / 10 % 10) (j / 10 % 10) with h2 | h2 | h2
    · have hc : Nat.digitChar (i / 10 % 10) < Nat.digitChar (j / 10 % 10) :=
        (digitChar_lt_iff (i / 10 % 10) (j / 10 % 10) (by omega) (by omega)).mpr h2
      simp [lexLt, hrefl, hc]
    · rw [h2]
      have hrefl2 : ¬ Nat.digitChar (j / 10 % 10) < Nat.digitChar (j / 10 % 10) := by
        rw [digitChar_lt_iff (j / 10 % 10) (j / 10 % 10) (by omega) (by omega)]
        omega
      have h3 : i % 10 < j % 10 := by omega
      have hc : Nat.digitChar (i % 10) < Nat.digitChar (j % 10) :=
        (digitChar_lt_iff (i % 10) (j % 10) (by omega) (by omega)).mpr h3
      simp [lexLt, hrefl, hrefl2, hc]
    · exfalso; omega
  · exfalso; omega

/-- Strict lexicographic order on equal-length prefixes is preserved by any
suffixes. -/
theorem lexLt_append (p : Str) : ∀ (q x y : Str), p.length = q.length →
    lexLt p q = true → lexLt (p ++ x) (q ++ y) = true := by
  induction p with
  | nil =>
    intro q x y hlen h
    cases q with
    | nil => simp [lexLt] at h
    | cons b bs => simp at hlen
  | cons a as ih =>
    intro q x y hlen h
    cases q with
    | nil => simp at hlen
    | cons b bs =>
      simp only [List.cons_append]
      by_cases hab : a < b
      · simp [lexLt, hab]
      · by_cases hba : b < a
        · simp [lexLt, hab, hba] at h
        · have hrest : lexLt as bs = true := by simpa [lexLt, hab, hba] using h
          simp [lexLt, hab, hba, ih bs x y (by simpa using hlen) hrest]

theorem pad3_length (i : Nat) (h : i < 1000) : (pad3 i).length = 3 := by
  rw [pad3_eq i h]
  rfl

/-- Name generated for index `i`: zero-padded index, dash, space id. -/
theorem composeNames_getElem (arts : List SpaceArtifact) (i : Nat) :
    (composePluginDirNames arts)[i]? =
      (arts[i]?).map (fun a => pad3 i ++ '-' :: a.spaceId) := by
  unfold composePluginDirNames
  rw [List.getElem?_map, List.getElem?_enum]
  cases arts[i]? <;> rfl

/-- With at most 1000 artifacts the generated names are strictly sorted. -/
theorem composeNames_sorted (arts : List SpaceArtifact) (h : arts.length ≤ 1000) :
    List.Sorted lexLtRel (composePluginDirNames arts) := by
  have hlen : (composePluginDirNames arts).length = arts.length := by
    simp [composePluginDirNames, List.enum_length]
  rw [List.Sorted, List.pairwise_iff_getElem]
  intro i j hi hj hij
  rw [hlen] at hi hj
  simp only [composePluginDirNames, List.getElem_map, List.getElem_enum]
  exact lexLt_append (pad3 i) (pad3 j) _ _
    (by rw [pad3_length i (by omega), pad3_length j (by omega)])
    (pad3_lt i j hij (by omega))

/-- C4: composition preserves Load Order.  `composeTarget` places the
artifact at index `i` under `<zero-padded-i>-<spaceId>`, and for every
closure of at most 1000 artifacts (where zero-padded prefixes sort in
numeric order) sorting the directory names lexicographically — as the run
path does — returns them unchanged, recovering the Load Order exactly. -/
theorem composeTarget_preserves_load_order (arts : List SpaceArtifact)
    (h : arts.length ≤ 1000) :
    (∀ i, (composePluginDirNames arts)[i]? =
      (arts[i]?).map (fun a => pad3 i ++ '-' :: a.spaceId)) ∧
    List.insertionSort lexLtRel (composePluginDirNames arts) =
      composePluginDirNames arts :=
  ⟨fun i => composeNames_getElem arts i,
   (composeNames_sorted arts h).insertionSort_eq⟩

/-- Witness for C4 on a two-artifact closure. -/
theorem composeTarget_preserves_load_order_witness :
    List.insertionSort lexLtRel
        (composePluginDirNames
          [⟨("base").data, ("p1").data⟩, ⟨("front").data, ("p2").data⟩]) =
      composePluginDirNames
        [⟨("base").data, ("p1").data⟩, ⟨("front").data, ("p2").data⟩] :=
  (composeTarget_preserves_load_order
    [⟨("base").data, ("p1").data⟩, ⟨("front").data, ("p2").data⟩] (by decide)).2

/-! Embedding of `ClaudeAdapter.materializeSpace` (claude-adapter.ts).  The
filesystem effects of one materialization are abstracted into an environment
recording each step's outcome; the modelled state is whether a cache entry
for the space remains. -/

/-- Outcome environment for the steps of `materializeSpace`: a `some e` in an
error slot means that step throws `e`; payload slots carry what successful
steps report (linked files, linked instructions file, validation results). -/
structure MatEnv where
  mkdirErr : Option String
  writePluginErr : Option String
  linkErr : Option String
  linkedFiles : List String
  instrErr : Option String
  instrFile : Option String
  hooksErr : Option String
  validateErr : Option String
  validWarnings : List String
  validErrors : List String
  validOk : Bool
  ensureExecErr : Option String
  deriving DecidableEq

/-- Result of a successful materialization. -/
structure MatResult where
  artifactPath : String
  files : List String
  warnings : List String
  deriving DecidableEq

/-- The try-block of `materializeSpace`: mkdir, write plugin.json, link
components, link the instructions file, generate hooks, validate hooks and
make them executable — stopping at the first step that throws. -/
def matBody (env : MatEnv) (cacheDir : String) : Except String MatResult :=
  match env.mkdirErr with
  | some e => Except.error e
  | none =>
  match env.writePluginErr with
  | some e => Except.error e
  | none =>
  match env.linkErr with
  | some e => Except.error e
  | none =>
  match env.instrErr with
  | some e => Except.error e
  | none =>
  match env.hooksErr with
  | some e => Except.error e
  | none =>
  match env.validateErr with
  | some e => Except.error e
  | none =>
  match env.ensureExecErr with
  | some e => Except.error e
  | none =>
    Except.ok
      { artifactPath := cacheDir
        files :=
          (".claude-plugin/plugin.json") :: env.linkedFiles ++
            (match env.instrFile with
             | some f => [f]
             | none => [])
        warnings := env.validWarnings ++ (if env.validOk then [] else env.validErrors) }

/-- Embedding of `materializeSpace`: run the try-block and, on any thrown
error, remove the cache directory before re-throwing.  The second component
tells whether a cache entry remains afterwards. -/
def materializeSpace (env : MatEnv) (cacheDir : String) :
    Except String MatResult × Bool :=
  match matBody env cacheDir with
  | Except.ok r => (Except.ok r, true)
  | Except.error e => (Except.error e, false)

/-- A successful try-block reports the cache directory as artifact path. -/
theorem matBody_ok_path (env : MatEnv) (cacheDir : String) (r : MatResult)
    (h : matBody env cacheDir = Except.ok r) : r.artifactPath = cacheDir := by
  unfold matBody at h
  repeat' split at h
  all_goals injection h
  all_goals (rename_i hpay; rw [← hpay])

/-- C8: per-space materialization is atomic with respect to the cache: if any
step throws, `materializeSpace` removes the cache directory before
re-throwing, so no partial cache entry remains; on success it returns the
cache directory as the artifact path, and the entry stays. -/
theorem materializeSpace_cleanup (env : MatEnv) (cacheDir : String) :
    (∀ e, (materializeSpace env cacheDir).1 = Except.error e →
      (materializeSpace env cacheDir).2 = false) ∧
    (∀ r, (materializeSpace env cacheDir).1 = Except.ok r →
      r.artifactPath = cacheDir ∧ (materializeSpace env cacheDir).2 = true) := by
  unfold materializeSpace
  cases hb : matBody env cacheDir with
  | ok r =>
    constructor
    · intro e h; exact absurd h (by simp)
    · intro r2 h
      simp only [Prod.fst] at h
      injection h with h
      subst h
      exact ⟨matBody_ok_path env cacheDir r hb, rfl⟩
  | error e =>
    constructor
    · intro e2 _; rfl
    · intro r h; exact absurd h (by simp)

/-- Environment whose component-linking step throws. -/
def sampleFailEnv : MatEnv :=
  ⟨none, none, some "link failed", [], none, none, none, none, [], [], true, none⟩

/-- Witness for C8: a failed linking step leaves no cache entry. -/
theorem materializeSpace_cleanup_witness :
    (materializeSpace sampleFailEnv ("cache/claude/abc")).2 = false :=
  (materializeSpace_cleanup sampleFailEnv ("cache/claude/abc")).1 ("link failed") rfl

/-! Embedding of `ClaudeAdapter.detect` (claude-adapter.ts). -/

/-- Probe result of `detectClaude`, the external binary detection. -/
structure ClaudeInfo where
  version : String
  path : String
  supportsMcpConfig : Bool
  supportsPluginDir : Bool
  deriving DecidableEq

/-- Detection result mirroring the `HarnessDetection` interface. -/
structure HarnessDetection where
  available : Bool
  version : Option String
  path : Option String
  capabilities : List String
  error : Option String
  deriving DecidableEq

/-- Embedding of `ClaudeAdapter.detect`: the probe outcome in, a detection
value out — success yields availability with version, path and capability
flags; a thrown error is caught and returned as a negative result carrying
the message. -/
def adapterDetect (probe : Except String ClaudeInfo) : HarnessDetection :=
  match probe with
  | Except.ok info =>
    { available := true
      version := some info.version
      path := some info.path
      capabilities :=
        ["multiPlugin", "settingsFlag"] ++
          (if info.supportsMcpConfig then ["mcpConfig"] else []) ++
          (if info.supportsPluginDir then ["pluginDir"] else [])
      error := none }
  | Except.error e =>
    { available := false
      version := none
      path := none
      capabilities := []
      error := some e }

/-- C9: harness detection never throws: `adapterDetect` is a total function
of the probe outcome, available exactly on success (with version, path and
capability flags), and on any detection failure it returns a negative result
carrying the error message. -/
theorem adapterDetect_total (probe : Except String ClaudeInfo) :
    ((adapterDetect probe).available = true ↔ ∃ info, probe = Except.ok info) ∧
    (∀ e, probe = Except.error e →
      (adapterDetect probe).available = false ∧
      (adapterDetect probe).error = some e) ∧
    (∀ info, probe = Except.ok info →
      (adapterDetect probe).version = some info.version ∧
      (adapterDetect probe).path = some info.path ∧
      ("multiPlugin") ∈ (adapterDetect probe).capabilities ∧
      ("settingsFlag") ∈ (adapterDetect probe).capabilities ∧
      (info.supportsMcpConfig = true →
        ("mcpConfig") ∈ (adapterDetect probe).capabilities) ∧
      (info.supportsPluginDir = true →
        ("pluginDir") ∈ (adapterDetect probe).capabilities)) := by
  cases probe with
  | ok info =>
    refine ⟨⟨fun _ => ⟨info, rfl⟩, fun _ => rfl⟩, ?_, ?_⟩
    · intro e h; injection h
    · intro info2 h
      injection h with h
      subst h
      refine ⟨rfl, rfl, by simp [adapterDetect], by simp [adapterDetect], ?_, ?_⟩
      · intro hm; simp [adapterDetect, hm]
      · intro hp; simp [adapterDetect, hp]
  | error e =>
    refine ⟨⟨fun hav => absurd hav (by simp [adapterDetect]), ?_⟩, ?_, ?_⟩
    · rintro ⟨info, hinfo⟩; injection hinfo
    · intro e2 h
      injection h with h
      subst h
      exact ⟨rfl, rfl⟩
    · intro info h; injection h

/-- Witness for C9: a failed probe yields a negative, message-carrying
result instead of an exception. -/
theorem adapterDetect_total_witness :
    (adapterDetect (Except.error ("claude not installed"))).available = false ∧
    (adapterDetect (Except.error ("claude not installed"))).error =
      some ("claude not installed") :=
  (adapterDetect_total (Except.error ("claude not installed"))).2.1
    ("claude not installed") rfl

end AgentSpaces



